import Mathlib

/-!
Shallow embedding of the Kuppams organic e-commerce backend core:
the stock ledger, cart aggregator, order lifecycle state machine
(`createOrder`, `updateOrderStatus`), coupon evaluator and the
socket notification layer, translated from the JavaScript sources
(orderController, cartController, couponController, the mongoose
models and utils/socketService).

Numbers: JavaScript `Number` quantities and stocks are embedded as `Int`
(all the arithmetic the code performs on them is integral), prices as
`Rat`.  Mongo documents become Lean structures; the product collection
becomes a finite map `Nat -> Option Product`; `product.save()` becomes
a pointwise store update.
-/

namespace Kuppams

/-- Order status enum, from the Order schema:
`["placed", "accepted", "packing", "sent_to_delivery", "delivered", "cancelled"]`. -/
inductive Status where
  | placed
  | accepted
  | packing
  | sent_to_delivery
  | delivered
  | cancelled
deriving DecidableEq, Repr

/-- Payment status enum, from the Order schema: `["pending", "paid", "failed"]`. -/
inductive PayStatus where
  | pending
  | paid
  | failed
deriving DecidableEq, Repr

/-- Rendering of a status, used in generated timeline notes. -/
def statusName : Status → String
  | .placed => "placed"
  | .accepted => "accepted"
  | .packing => "packing"
  | .sent_to_delivery => "sent_to_delivery"
  | .delivered => "delivered"
  | .cancelled => "cancelled"

/-- Product document (models/Product.js): name, price, discount percentage,
integer stock, activity flag.  Fields not touched by the core
(description, category, images) are omitted. -/
structure Product where
  name : String
  price : Rat
  discount : Rat
  stock : Int
  isActive : Bool
deriving DecidableEq, Repr

/-- The `discountedPrice` virtual of the Product schema:
`price * (1 - discount / 100)` when `discount > 0`, else `price`. -/
def Product.discountedPrice (p : Product) : Rat :=
  if p.discount > 0 then p.price * (1 - p.discount / 100) else p.price

/-- The price the controllers actually charge:
`product.discountedPrice || product.price` — JavaScript truthiness
substitutes `price` when the virtual evaluates to `0`. -/
def Product.effectivePrice (p : Product) : Rat :=
  if p.discountedPrice = 0 then p.price else p.discountedPrice

/-- The product collection: a map from product id to document. -/
def ProductStore : Type := Nat → Option Product

/-- `product.save()`: overwrite one document of the collection. -/
def setProduct (store : ProductStore) (pid : Nat) (p : Product) : ProductStore :=
  fun i => if i = pid then some p else store i

/-- One cart line (`cartItemSchema`): product reference and quantity. -/
structure CartItem where
  product : Nat
  quantity : Int
deriving DecidableEq, Repr

/-- Cart document: one per user, a sequence of lines. -/
structure Cart where
  user : Nat
  items : List CartItem
deriving DecidableEq, Repr

/-- Failures of `addToCart`, with the payload the 400 message carries. -/
inductive CartError where
  | productNotFound
  | insufficientStock (available requested : Int)
deriving DecidableEq, Repr

/-- The merge-or-append step of `addToCart`: `findIndex` over the lines;
on the first line for the product, check the combined quantity against
stock and update in place; if no line matches, push a new line at the
end. -/
def mergeLine (stock : Int) (productId : Nat) (quantity : Int) :
    List CartItem → Except CartError (List CartItem)
  | [] => .ok [{ product := productId, quantity := quantity }]
  | it :: rest =>
    if it.product = productId then
      if stock < it.quantity + quantity then
        .error (.insufficientStock stock (it.quantity + quantity))
      else
        .ok ({ product := productId, quantity := it.quantity + quantity } :: rest)
    else
      match mergeLine stock productId quantity rest with
      | .error e => .error e
      | .ok rest2 => .ok (it :: rest2)

/-- `addToCart` (cartController): the product must exist and be active
(404 otherwise); the standalone quantity is checked against stock first,
then the merged line quantity.  The cart is the only document written;
no product stock is mutated. -/
def addToCart (store : ProductStore) (cart : Cart) (productId : Nat)
    (quantity : Int) : Except CartError Cart :=
  match store productId with
  | none => .error .productNotFound
  | some product =>
    if product.isActive = false then .error .productNotFound
    else if product.stock < quantity then
      .error (.insufficientStock product.stock quantity)
    else
      match mergeLine product.stock productId quantity cart.items with
      | .error e => .error e
      | .ok items2 => .ok { cart with items := items2 }

/-- One order item (`orderItemSchema`): snapshot of product, name,
quantity, unit price and discount at purchase time. -/
structure OrderItem where
  product : Nat
  name : String
  quantity : Int
  price : Rat
  discount : Rat
deriving DecidableEq, Repr

/-- One `statusTimeline` entry: status, timestamp, note. -/
structure TimelineEntry where
  status : Status
  timestamp : Nat
  note : String
deriving DecidableEq, Repr

/-- Order document (models/Order.js).  `expectedDeliveryDate` defaults to
null; timestamps are abstract `Nat` instants. -/
structure Order where
  orderNumber : String
  user : Nat
  items : List OrderItem
  totalAmount : Rat
  status : Status
  paymentStatus : PayStatus
  expectedDeliveryDate : Option Nat
  statusTimeline : List TimelineEntry
deriving DecidableEq, Repr

/-- The socket events of utils/socketService, by payload shape:
`order:new` carries the order, a timestamp and `sound: true`;
`order:status-updated` carries the order and a timestamp. -/
inductive OrderEvent where
  | newOrder (order : Order) (timestamp : Nat) (sound : Bool)
  | statusUpdated (order : Order) (timestamp : Nat)
deriving DecidableEq, Repr

/-- `emitNewOrder` (utils/socketService): the `order:new` event published
to the admin room. -/
def emitNewOrder (order : Order) (timestamp : Nat) : OrderEvent :=
  .newOrder order timestamp true

/-- `emitOrderStatusUpdate` (utils/socketService): the
`order:status-updated` event published to the admin room. -/
def emitOrderStatusUpdate (order : Order) (timestamp : Nat) : OrderEvent :=
  .statusUpdated order timestamp

/-- Failures of `createOrder`, with the payloads its 400 messages carry. -/
inductive OrderError where
  | emptyCart
  | productUnavailable (name : String)
  | insufficientStock (name : String) (available requested : Int)
deriving DecidableEq, Repr

/-- The checkout loop of `createOrder`: walk the cart lines in order; a
missing or inactive product aborts with `productUnavailable`, a line
whose quantity exceeds current stock aborts with `insufficientStock`;
otherwise snapshot the item, accumulate `price * quantity` into the
total (price is `discountedPrice || price`) and persist the decremented
stock before moving on.  An abort keeps the stock writes already made
(`product.save()` per iteration — no rollback). -/
def processCartItems (store : ProductStore) :
    List CartItem → ProductStore × Except OrderError (List OrderItem × Rat)
  | [] => (store, .ok ([], 0))
  | line :: rest =>
    match store line.product with
    | none => (store, .error (.productUnavailable "Unknown"))
    | some p =>
      if p.isActive = false then
        (store, .error (.productUnavailable p.name))
      else if p.stock < line.quantity then
        (store, .error (.insufficientStock p.name p.stock line.quantity))
      else
        let store2 := setProduct store line.product
          { p with stock := p.stock - line.quantity }
        match processCartItems store2 rest with
        | (store3, .error e) => (store3, .error e)
        | (store3, .ok (items, total)) =>
          (store3,
           .ok ({ product := line.product, name := p.name,
                  quantity := line.quantity, price := p.price,
                  discount := p.discount } :: items,
                p.effectivePrice * line.quantity + total))

/-- Result of `createOrder`: the product store after the call (stock
writes persist even when the call fails partway), the outcome, and the
socket events the controller emitted during the call. -/
structure CreateResult where
  store : ProductStore
  outcome : Except OrderError (Order × Cart)
  events : List OrderEvent

/-- `createOrder` (orderController): reject an empty cart, run the
checkout loop, then persist the order with status `placed`, payment
status `pending`, a single seeded `placed` timeline entry, and clear the
cart's lines (the cart document is saved, not deleted).  The controller
responds without ever calling `emitNewOrder` — utils/socketService is
not imported there — so the event trace of every call is empty. -/
def createOrder (store : ProductStore) (cart : Cart) (now : Nat)
    (orderNumber : String) : CreateResult :=
  if cart.items = [] then
    { store := store, outcome := .error .emptyCart, events := [] }
  else
    match processCartItems store cart.items with
    | (store2, .error e) => { store := store2, outcome := .error e, events := [] }
    | (store2, .ok (items, total)) =>
      { store := store2,
        outcome := .ok
          ({ orderNumber := orderNumber, user := cart.user, items := items,
             totalAmount := total, status := .placed,
             paymentStatus := .pending, expectedDeliveryDate := none,
             statusTimeline := [{ status := .placed, timestamp := now,
                                  note := "Order placed successfully" }] },
           { cart with items := [] }),
        events := [] }

/-- The cancel branch of `updateOrderStatus`: for every item whose
product still exists, add the item quantity back to stock and persist;
items whose product is gone are skipped. -/
def releaseItems (store : ProductStore) : List OrderItem → ProductStore
  | [] => store
  | it :: rest =>
    match store it.product with
    | none => releaseItems store rest
    | some p =>
      releaseItems (setProduct store it.product
        { p with stock := p.stock + it.quantity }) rest

/-- The payload of the reactivation 400 response: product name, available
stock, required quantity. -/
structure StockShortage where
  name : String
  available : Int
  required : Int
deriving DecidableEq, Repr

/-- The reactivation branch of `updateOrderStatus`: walk the items; a
missing product is skipped; an existing product with `stock < quantity`
aborts the whole call with a 400 naming it (stock writes already made
stay persisted); otherwise subtract the quantity and persist. -/
def reserveItems (store : ProductStore) :
    List OrderItem → ProductStore × Option StockShortage
  | [] => (store, none)
  | it :: rest =>
    match store it.product with
    | none => reserveItems store rest
    | some p =>
      if p.stock < it.quantity then
        (store, some { name := p.name, available := p.stock,
                       required := it.quantity })
      else
        reserveItems (setProduct store it.product
          { p with stock := p.stock - it.quantity }) rest

/-- `note || generated message`: JavaScript treats an absent or empty
note as falsy and substitutes the generated message. -/
def chooseNote (note : Option String) (fallback : String) : String :=
  match note with
  | none => fallback
  | some n => if n = "" then fallback else n

/-- The status-change tail of the guarded block: set the new status and
append one timeline entry. -/
def pushTimeline (order : Order) (status : Status) (now : Nat)
    (note : Option String) (previousStatus : Status) : Order :=
  { order with
    status := status,
    statusTimeline := order.statusTimeline ++
      [{ status := status, timestamp := now,
         note := chooseNote note
           ("Status changed from " ++ statusName previousStatus ++
            " to " ++ statusName status) }] }

/-- The delivery-estimate note text (`toLocaleDateString` abstracted to a
plain rendering of the date instant). -/
def deliveryNoteText (date : Nat) : String :=
  "Order sent to delivery. Expected delivery: " ++ toString date

/-- The `expectedDeliveryDate` block of `updateOrderStatus`: set the
date; if the order's (possibly just-updated) status is
`sent_to_delivery` and the last timeline entry's status is too,
overwrite that entry's note with the delivery estimate. -/
def applyDeliveryDate (order : Order) (date? : Option Nat) : Order :=
  match date? with
  | none => order
  | some date =>
    let order2 := { order with expectedDeliveryDate := some date }
    if order2.status = .sent_to_delivery then
      match order2.statusTimeline.getLast? with
      | none => order2
      | some last =>
        if last.status = .sent_to_delivery then
          { order2 with statusTimeline :=
              order2.statusTimeline.dropLast ++
              [{ last with note := deliveryNoteText date }] }
        else order2
    else order2

/-- Result of `updateOrderStatus`: the product store after the call
(stock writes persist even on the reactivation 400), the persisted order
(unchanged when the call failed — `order.save()` is never reached), the
shortage carried by a 400 response if any, and the socket events the
controller emitted. -/
structure UpdateResult where
  store : ProductStore
  order : Order
  error : Option StockShortage
  events : List OrderEvent

/-- The unconditional tail of `updateOrderStatus`: apply `paymentStatus`
if present, apply `expectedDeliveryDate` (with the note back-patch) if
present, then save.  No call to `emitOrderStatusUpdate` appears in the
controller, so the event trace is empty. -/
def finishUpdate (store : ProductStore) (order : Order)
    (paymentStatus : Option PayStatus) (date? : Option Nat) : UpdateResult :=
  let order2 := match paymentStatus with
    | none => order
    | some ps => { order with paymentStatus := ps }
  { store := store, order := applyDeliveryDate order2 date?,
    error := none, events := [] }

/-- `updateOrderStatus` (orderController): stock is reconciled only when a
status is supplied and differs from the current one — release every
item's stock on a transition into `cancelled` from anything but
`cancelled`/`delivered`, re-reserve every item's stock (with per-item
recheck that can abort the call) on a transition out of `cancelled` —
then the status is set, a timeline entry appended, and payment status /
expected delivery date applied before saving. -/
def updateOrderStatus (store : ProductStore) (order : Order)
    (newStatus : Option Status) (paymentStatus : Option PayStatus)
    (date? : Option Nat) (note : Option String) (now : Nat) : UpdateResult :=
  let previousStatus := order.status
  match newStatus with
  | none => finishUpdate store order paymentStatus date?
  | some status =>
    if status = previousStatus then
      finishUpdate store order paymentStatus date?
    else
      let store1 :=
        if status = Status.cancelled ∧ previousStatus ≠ Status.cancelled ∧
            previousStatus ≠ Status.delivered then
          releaseItems store order.items
        else store
      if previousStatus = Status.cancelled ∧ status ≠ Status.cancelled then
        match reserveItems store1 order.items with
        | (store2, some shortage) =>
          { store := store2, order := order, error := some shortage,
            events := [] }
        | (store2, none) =>
          finishUpdate store2 (pushTimeline order status now note previousStatus)
            paymentStatus date?
      else
        finishUpdate store1 (pushTimeline order status now note previousStatus)
          paymentStatus date?

/-- Coupon document (models/Coupon.js).  `usageLimit` is nullable (and
`createCoupon` turns a falsy value into null); `minPurchaseAmount`
defaults to 0, which JavaScript truthiness treats as unset. -/
structure Coupon where
  code : String
  discountPercentage : Rat
  isActive : Bool
  expiryDate : Option Nat
  usageLimit : Option Nat
  usedCount : Nat
  minPurchaseAmount : Rat
deriving DecidableEq, Repr

/-- The coupon collection, keyed by (uppercase) code. -/
def CouponStore : Type := String → Option Coupon

/-- `Number.prototype.toFixed(2)` on the exact rational value: round to
two decimal places. -/
def toFixed2 (q : Rat) : Rat := (round (q * 100) : Int) / 100

/-- Outcomes of `validateCoupon`, one per response branch, with the
payloads the responses carry. -/
inductive CouponOutcome where
  | invalidCode
  | notActive
  | expired
  | usageLimitReached
  | belowMinimum (minPurchaseAmount : Rat)
  | ok (code : String) (discountPercentage : Rat)
      (discountAmount finalAmount : Rat)
deriving DecidableEq, Repr

/-- `code.toUpperCase()`: uppercase the code points of the string. -/
def toUpperString (s : String) : String :=
  String.mk (s.data.map Char.toUpper)

/-- The guard `coupon.expiryDate && new Date() > coupon.expiryDate`:
a null expiry is falsy and never expires. -/
def couponExpired (coupon : Coupon) (now : Nat) : Bool :=
  match coupon.expiryDate with
  | none => false
  | some e => decide (e < now)

/-- The guard `coupon.usageLimit && coupon.usedCount >= coupon.usageLimit`:
a null cap is falsy and never reached. -/
def couponCapReached (coupon : Coupon) : Bool :=
  match coupon.usageLimit with
  | none => false
  | some l => decide (l ≤ coupon.usedCount)

/-- `validateCoupon` (couponController): look the code up uppercased,
check activity, expiry, usage cap and minimum purchase in that order;
on success report the discount and final amounts rounded to two
decimals.  The function performs no write: the returned store is the
input store, in particular `usedCount` is never incremented. -/
def validateCoupon (store : CouponStore) (code : String) (cartTotal : Rat)
    (now : Nat) : CouponStore × CouponOutcome :=
  match store (toUpperString code) with
  | none => (store, .invalidCode)
  | some coupon =>
    if coupon.isActive = false then (store, .notActive)
    else if couponExpired coupon now then (store, .expired)
    else if couponCapReached coupon then (store, .usageLimitReached)
    else if coupon.minPurchaseAmount ≠ 0 ∧
        cartTotal < coupon.minPurchaseAmount then
      (store, .belowMinimum coupon.minPurchaseAmount)
    else
      (store,
       .ok coupon.code coupon.discountPercentage
         (toFixed2 (cartTotal * coupon.discountPercentage / 100))
         (toFixed2 (cartTotal - cartTotal * coupon.discountPercentage / 100)))

/-- One stock-touching API call, with the request data it carries.  The
cart and order documents are the caller's; only the product store is
threaded through a sequence. -/
inductive Op where
  | cartAdd (cart : Cart) (productId : Nat) (quantity : Int)
  | checkout (cart : Cart) (now : Nat) (orderNumber : String)
  | statusUpdate (order : Order) (newStatus : Option Status)
      (paymentStatus : Option PayStatus) (date? : Option Nat)
      (note : Option String) (now : Nat)

/-- Effect of one call on the product store.  `addToCart` never writes a
product document, so its store effect is the identity. -/
def applyOp (store : ProductStore) : Op → ProductStore
  | .cartAdd _ _ _ => store
  | .checkout cart now orderNumber => (createOrder store cart now orderNumber).store
  | .statusUpdate order newStatus paymentStatus date? note now =>
    (updateOrderStatus store order newStatus paymentStatus date? note now).store

/-- The schema constraint on order items: `quantity` has `min: 1`. -/
def WFOrder (order : Order) : Prop :=
  ∀ it ∈ order.items, 1 ≤ it.quantity

/-- A well-formed call: any status update's order satisfies the order
schema's quantity bound. -/
def WFOp : Op → Prop
  | .cartAdd _ _ _ => True
  | .checkout _ _ _ => True
  | .statusUpdate order _ _ _ _ _ => WFOrder order

/-- The stock invariant: every product document in the store has
non-negative stock. -/
def StoreNonneg (store : ProductStore) : Prop :=
  ∀ pid p, store pid = some p → 0 ≤ p.stock

/-- The charge of one cart line at current catalog prices:
`quantity * (discountedPrice || price)`, `0` for a dangling reference. -/
def lineTotal (store : ProductStore) (line : CartItem) : Rat :=
  match store line.product with
  | none => 0
  | some p => p.effectivePrice * line.quantity

/-- Sum of the line charges of a cart at current catalog prices. -/
def cartTotal (store : ProductStore) (lines : List CartItem) : Rat :=
  (lines.map (lineTotal store)).sum

/-- The (status, timestamp) skeleton of a timeline: what an append adds
to and what a note back-patch leaves alone. -/
def timelineSkeleton (order : Order) : List (Status × Nat) :=
  order.statusTimeline.map (fun e => (e.status, e.timestamp))

/-- Concrete fixture: the product of the spec's scenarios
(stock 5, no discount, active). -/
def demoProduct : Product :=
  { name := "Tomato", price := 50, discount := 0, stock := 5, isActive := true }

/-- Concrete fixture: a one-product catalog. -/
def demoStore : ProductStore :=
  fun i => if i = 1 then some demoProduct else none

/-- Concrete fixture: a placed order holding 2 units of the product. -/
def demoOrder : Order :=
  { orderNumber := "#001", user := 7,
    items := [{ product := 1, name := "Tomato", quantity := 2,
                price := 50, discount := 0 }],
    totalAmount := 100, status := .placed, paymentStatus := .pending,
    expectedDeliveryDate := none,
    statusTimeline := [{ status := .placed, timestamp := 0,
                         note := "Order placed successfully" }] }

/-- Concrete fixture: the same order already cancelled. -/
def demoCancelled : Order :=
  { demoOrder with status := .cancelled }

/-- Concrete fixture: a cart holding 2 units of the product. -/
def demoCart : Cart :=
  { user := 7, items := [{ product := 1, quantity := 2 }] }

/-- Concrete fixture: the coupon of spec scenario D. -/
def demoCoupon : Coupon :=
  { code := "SAVE10", discountPercentage := 10, isActive := true,
    expiryDate := none, usageLimit := none, usedCount := 0,
    minPurchaseAmount := 100 }

/-- Concrete fixture: a one-coupon collection. -/
def demoCoupons : CouponStore :=
  fun c => if c = "SAVE10" then some demoCoupon else none

/-- Concrete fixture: the catalog after the product's stock dropped to 1,
too low to re-commit the demo order. -/
def demoLowStore : ProductStore :=
  fun i => if i = 1 then some { demoProduct with stock := 1 } else none

/-- Concrete fixture: a cart add followed by a checkout. -/
def demoOps : List Op :=
  [Op.cartAdd demoCart 1 3, Op.checkout demoCart 0 "#002"]

/-! ### Store helper lemmas -/

theorem setProduct_self (store : ProductStore) (pid : Nat) (p : Product) :
    setProduct store pid p pid = some p := by
  simp [setProduct]

theorem setProduct_ne (store : ProductStore) (pid : Nat) (p : Product)
    (q : Nat) (h : q ≠ pid) : setProduct store pid p q = store q := by
  simp [setProduct, h]

theorem effectivePrice_setStock (p : Product) (s : Int) :
    Product.effectivePrice { p with stock := s } = p.effectivePrice := rfl

theorem setProduct_nonneg (store : ProductStore) (pid : Nat) (p : Product)
    (h : StoreNonneg store) (hp : 0 ≤ p.stock) :
    StoreNonneg (setProduct store pid p) := by
  intro q r hq
  unfold setProduct at hq
  split at hq
  · exact (Option.some.inj hq) ▸ hp
  · exact h q r hq

/-! ### Release (cancel) lemmas -/

theorem releaseItems_not_mem (items : List OrderItem) (store : ProductStore)
    (pid : Nat) (h : pid ∉ items.map OrderItem.product) :
    releaseItems store items pid = store pid := by
  induction items generalizing store with
  | nil => rfl
  | cons hd rest ih =>
    simp only [List.map_cons, List.mem_cons, not_or] at h
    obtain ⟨h1, h2⟩ := h
    cases hst : store hd.product with
    | none => simp only [releaseItems, hst]; exact ih store h2
    | some p =>
      simp only [releaseItems, hst]
      rw [ih _ h2, setProduct_ne _ _ _ _ h1]

theorem releaseItems_mem (items : List OrderItem) (store : ProductStore)
    (it : OrderItem) (hmem : it ∈ items)
    (hnodup : (items.map OrderItem.product).Nodup) :
    releaseItems store items it.product =
      (store it.product).map
        (fun p => { p with stock := p.stock + it.quantity }) := by
  induction items generalizing store with
  | nil => cases hmem
  | cons hd rest ih =>
    simp only [List.map_cons, List.nodup_cons] at hnodup
    obtain ⟨hhd, hrest⟩ := hnodup
    rcases List.mem_cons.mp hmem with heq | hmem2
    · subst heq
      cases hst : store it.product with
      | none =>
        simp only [releaseItems, hst]
        rw [releaseItems_not_mem _ _ _ hhd, hst]
        rfl
      | some p =>
        simp only [releaseItems, hst]
        rw [releaseItems_not_mem _ _ _ hhd, setProduct_self]
        rfl
    · have hne : it.product ≠ hd.product := by
        intro h
        exact hhd (h ▸ List.mem_map_of_mem OrderItem.product hmem2)
      cases hst : store hd.product with
      | none => simp only [releaseItems, hst]; exact ih store hmem2 hrest
      | some p =>
        simp only [releaseItems, hst]
        rw [ih _ hmem2 hrest, setProduct_ne _ _ _ _ hne]

theorem releaseItems_nonneg (items : List OrderItem) (store : ProductStore)
    (h : StoreNonneg store) (hq : ∀ it ∈ items, 1 ≤ it.quantity) :
    StoreNonneg (releaseItems store items) := by
  induction items generalizing store with
  | nil => exact h
  | cons hd rest ih =>
    cases hst : store hd.product with
    | none =>
      simp only [releaseItems, hst]
      exact ih store h (fun it hit => hq it (List.mem_cons_of_mem _ hit))
    | some p =>
      simp only [releaseItems, hst]
      apply ih _ _ (fun it hit => hq it (List.mem_cons_of_mem _ hit))
      apply setProduct_nonneg _ _ _ h
      have h1 := h hd.product p hst
      have h2 := hq hd (List.mem_cons_self _ _)
      show 0 ≤ p.stock + hd.quantity
      omega

/-! ### Reserve (reactivation) lemmas -/

theorem reserveItems_fst_not_mem (items : List OrderItem) (store : ProductStore)
    (pid : Nat) (h : pid ∉ items.map OrderItem.product) :
    (reserveItems store items).1 pid = store pid := by
  induction items generalizing store with
  | nil => rfl
  | cons hd rest ih =>
    simp only [List.map_cons, List.mem_cons, not_or] at h
    obtain ⟨h1, h2⟩ := h
    cases hst : store hd.product with
    | none => simp only [reserveItems, hst]; exact ih store h2
    | some p =>
      simp only [reserveItems, hst]
      by_cases hlt : p.stock < hd.quantity
      · rw [if_pos hlt]
      · rw [if_neg hlt, ih _ h2, setProduct_ne _ _ _ _ h1]

theorem reserveItems_ok (items : List OrderItem) (store : ProductStore)
    (hnodup : (items.map OrderItem.product).Nodup)
    (hsuff : ∀ it ∈ items, ∀ p, store it.product = some p →
       it.quantity ≤ p.stock) :
    (reserveItems store items).2 = none ∧
    ∀ it ∈ items, (reserveItems store items).1 it.product =
      (store it.product).map
        (fun p => { p with stock := p.stock - it.quantity }) := by
  induction items generalizing store with
  | nil => exact ⟨rfl, fun it hit => absurd hit (List.not_mem_nil it)⟩
  | cons hd rest ih =>
    simp only [List.map_cons, List.nodup_cons] at hnodup
    obtain ⟨hhd, hrest⟩ := hnodup
    cases hst : store hd.product with
    | none =>
      simp only [reserveItems, hst]
      have hrec := ih store hrest
        (fun it hit p hp => hsuff it (List.mem_cons_of_mem _ hit) p hp)
      refine ⟨hrec.1, ?_⟩
      intro it hit
      rcases List.mem_cons.mp hit with heq | hmem2
      · subst heq
        rw [reserveItems_fst_not_mem _ _ _ hhd, hst]
        rfl
      · exact hrec.2 it hmem2
    | some p =>
      have hle := hsuff hd (List.mem_cons_self _ _) p hst
      simp only [reserveItems, hst, if_neg (not_lt.mpr hle)]
      have hsuff2 : ∀ it ∈ rest, ∀ q,
          setProduct store hd.product { p with stock := p.stock - hd.quantity }
            it.product = some q → it.quantity ≤ q.stock := by
        intro it hit q hq
        have hne : it.product ≠ hd.product := by
          intro h
          exact hhd (h ▸ List.mem_map_of_mem OrderItem.product hit)
        rw [setProduct_ne _ _ _ _ hne] at hq
        exact hsuff it (List.mem_cons_of_mem _ hit) q hq
      have hrec := ih _ hrest hsuff2
      refine ⟨hrec.1, ?_⟩
      intro it hit
      rcases List.mem_cons.mp hit with heq | hmem2
      · subst heq
        rw [reserveItems_fst_not_mem _ _ _ hhd, setProduct_self, hst]
        rfl
      · have hne : it.product ≠ hd.product := by
          intro h
          exact hhd (h ▸ List.mem_map_of_mem OrderItem.product hmem2)
        rw [hrec.2 it hmem2, setProduct_ne _ _ _ _ hne]

theorem reserveItems_fail (pre : List OrderItem) (bad : OrderItem)
    (post : List OrderItem) (store : ProductStore) (p : Product)
    (hnodup : ((pre ++ bad :: post).map OrderItem.product).Nodup)
    (hp : store bad.product = some p) (hlt : p.stock < bad.quantity)
    (hpre : ∀ jt ∈ pre, ∀ q, store jt.product = some q →
       jt.quantity ≤ q.stock) :
    (reserveItems store (pre ++ bad :: post)).2 =
      some { name := p.name, available := p.stock,
             required := bad.quantity } ∧
    ∀ jt ∈ pre, (reserveItems store (pre ++ bad :: post)).1 jt.product =
      (store jt.product).map
        (fun q => { q with stock := q.stock - jt.quantity }) := by
  induction pre generalizing store with
  | nil =>
    refine ⟨?_, fun jt hjt => absurd hjt (List.not_mem_nil jt)⟩
    simp only [List.nil_append, reserveItems, hp, if_pos hlt]
  | cons hd pre2 ih =>
    simp only [List.cons_append, List.map_cons, List.nodup_cons] at hnodup ⊢
    obtain ⟨hhd, hrest⟩ := hnodup
    cases hst : store hd.product with
    | none =>
      simp only [reserveItems, hst]
      have hrec := ih store hrest hp
        (fun jt hjt q hq => hpre jt (List.mem_cons_of_mem _ hjt) q hq)
      refine ⟨hrec.1, ?_⟩
      intro jt hjt
      rcases List.mem_cons.mp hjt with heq | hmem2
      · subst heq
        rw [reserveItems_fst_not_mem _ _ _ hhd, hst]
        rfl
      · exact hrec.2 jt hmem2
    | some q =>
      have hle := hpre hd (List.mem_cons_self _ _) q hst
      simp only [reserveItems, hst, if_neg (not_lt.mpr hle)]
      have hbadne : bad.product ≠ hd.product := by
        intro h
        apply hhd
        rw [← h]
        exact List.mem_map_of_mem OrderItem.product
          (List.mem_append_right pre2 (List.mem_cons_self _ _))
      have hp2 : setProduct store hd.product
          { q with stock := q.stock - hd.quantity } bad.product = some p := by
        rw [setProduct_ne _ _ _ _ hbadne]; exact hp
      have hpre2 : ∀ jt ∈ pre2, ∀ r,
          setProduct store hd.product { q with stock := q.stock - hd.quantity }
            jt.product = some r → jt.quantity ≤ r.stock := by
        intro jt hjt r hr
        have hne : jt.product ≠ hd.product := by
          intro h
          apply hhd
          rw [← h]
          exact List.mem_map_of_mem OrderItem.product
            (List.mem_append_left _ hjt)
        rw [setProduct_ne _ _ _ _ hne] at hr
        exact hpre jt (List.mem_cons_of_mem _ hjt) r hr
      have hrec := ih _ hrest hp2 hpre2
      refine ⟨hrec.1, ?_⟩
      intro jt hjt
      rcases List.mem_cons.mp hjt with heq | hmem2
      · subst heq
        rw [reserveItems_fst_not_mem _ _ _ hhd, setProduct_self, hst]
        rfl
      · have hne : jt.product ≠ hd.product := by
          intro h
          apply hhd
          rw [← h]
          exact List.mem_map_of_mem OrderItem.product
            (List.mem_append_left _ hmem2)
        rw [hrec.2 jt hmem2, setProduct_ne _ _ _ _ hne]

theorem reserveItems_nonneg (items : List OrderItem) (store : ProductStore)
    (h : StoreNonneg store) : StoreNonneg (reserveItems store items).1 := by
  induction items generalizing store with
  | nil => exact h
  | cons hd rest ih =>
    cases hst : store hd.product with
    | none => simp only [reserveItems, hst]; exact ih store h
    | some p =>
      simp only [reserveItems, hst]
      by_cases hlt : p.stock < hd.quantity
      · rw [if_pos hlt]; exact h
      · rw [if_neg hlt]
        apply ih
        apply setProduct_nonneg _ _ _ h
        show 0 ≤ p.stock - hd.quantity
        omega

/-! ### Checkout-loop lemmas -/

theorem lineTotal_setStock (store : ProductStore) (pid : Nat) (p : Product)
    (s : Int) (line : CartItem) (hp : store pid = some p) :
    lineTotal (setProduct store pid { p with stock := s }) line =
      lineTotal store line := by
  by_cases h : line.product = pid
  · rw [lineTotal, lineTotal, h, setProduct_self, hp]
    rfl
  · rw [lineTotal, lineTotal, setProduct_ne _ _ _ _ h]

theorem cartTotal_setStock (store : ProductStore) (pid : Nat) (p : Product)
    (s : Int) (lines : List CartItem) (hp : store pid = some p) :
    cartTotal (setProduct store pid { p with stock := s }) lines =
      cartTotal store lines := by
  unfold cartTotal
  congr 1
  exact List.map_congr_left (fun line _ => lineTotal_setStock store pid p s line hp)

theorem processCartItems_fst_not_mem (lines : List CartItem)
    (store : ProductStore) (pid : Nat)
    (h : pid ∉ lines.map CartItem.product) :
    (processCartItems store lines).1 pid = store pid := by
  induction lines generalizing store with
  | nil => rfl
  | cons line rest ih =>
    simp only [List.map_cons, List.mem_cons, not_or] at h
    obtain ⟨h1, h2⟩ := h
    cases hst : store line.product with
    | none => simp only [processCartItems, hst]
    | some p =>
      simp only [processCartItems, hst]
      by_cases hact : p.isActive = false
      · rw [if_pos hact]
      · rw [if_neg hact]
        by_cases hlt : p.stock < line.quantity
        · rw [if_pos hlt]
        · rw [if_neg hlt]
          cases hrec : processCartItems
              (setProduct store line.product
                { p with stock := p.stock - line.quantity }) rest with
          | mk store3 out =>
            have := ih (setProduct store line.product
              { p with stock := p.stock - line.quantity }) h2
            rw [hrec] at this
            cases out with
            | error e => simpa [setProduct_ne _ _ _ _ h1] using this
            | ok v => simpa [setProduct_ne _ _ _ _ h1] using this

theorem processCartItems_ok (lines : List CartItem) (store : ProductStore)
    (hnodup : (lines.map CartItem.product).Nodup)
    (hsuff : ∀ line ∈ lines, ∃ p, store line.product = some p ∧
       p.isActive = true ∧ line.quantity ≤ p.stock) :
    (∃ items, (processCartItems store lines).2 =
       .ok (items, cartTotal store lines)) ∧
    ∀ line ∈ lines, (processCartItems store lines).1 line.product =
      (store line.product).map
        (fun p => { p with stock := p.stock - line.quantity }) := by
  induction lines generalizing store with
  | nil =>
    exact ⟨⟨[], rfl⟩, fun line hline => absurd hline (List.not_mem_nil line)⟩
  | cons line rest ih =>
    simp only [List.map_cons, List.nodup_cons] at hnodup
    obtain ⟨hhd, hrest⟩ := hnodup
    obtain ⟨p, hp, hact, hle⟩ := hsuff line (List.mem_cons_self _ _)
    have hact2 : ¬ p.isActive = false := by simp [hact]
    have hsuff2 : ∀ l ∈ rest, ∃ q,
        setProduct store line.product
          { p with stock := p.stock - line.quantity } l.product = some q ∧
        q.isActive = true ∧ l.quantity ≤ q.stock := by
      intro l hl
      have hne : l.product ≠ line.product := by
        intro h
        exact hhd (h ▸ List.mem_map_of_mem CartItem.product hl)
      rw [setProduct_ne _ _ _ _ hne]
      exact hsuff l (List.mem_cons_of_mem _ hl)
    have hrec := ih _ hrest hsuff2
    obtain ⟨⟨items2, hout⟩, hstocks⟩ := hrec
    simp only [processCartItems, hp, if_neg hact2, if_neg (not_lt.mpr hle)]
    cases hsplit : processCartItems
        (setProduct store line.product
          { p with stock := p.stock - line.quantity }) rest with
    | mk store3 out =>
      rw [hsplit] at hout
      simp only at hout
      subst hout
      constructor
      · refine ⟨OrderItem.mk line.product p.name line.quantity p.price
          p.discount :: items2, ?_⟩
        simp only []
        rw [cartTotal_setStock store line.product p _ rest hp]
        simp only [cartTotal, List.map_cons, List.sum_cons]
        rw [show lineTotal store line = p.effectivePrice * line.quantity by
          rw [lineTotal, hp]]
      · intro l hl
        simp only []
        rcases List.mem_cons.mp hl with heq | hmem2
        · subst heq
          have hfix := processCartItems_fst_not_mem rest
            (setProduct store l.product
              { p with stock := p.stock - l.quantity }) l.product hhd
          rw [hsplit] at hfix
          simp only at hfix
          rw [hfix, setProduct_self, hp]
          rfl
        · have hne : l.product ≠ line.product := by
            intro h
            exact hhd (h ▸ List.mem_map_of_mem CartItem.product hmem2)
          have hfix := hstocks l hmem2
          rw [hsplit] at hfix
          simp only at hfix
          rw [hfix, setProduct_ne _ _ _ _ hne]

theorem processCartItems_nonneg (lines : List CartItem)
    (store : ProductStore) (h : StoreNonneg store) :
    StoreNonneg (processCartItems store lines).1 := by
  induction lines generalizing store with
  | nil => exact h
  | cons line rest ih =>
    cases hst : store line.product with
    | none => simp only [processCartItems, hst]; exact h
    | some p =>
      simp only [processCartItems, hst]
      by_cases hact : p.isActive = false
      · rw [if_pos hact]; exact h
      · rw [if_neg hact]
        by_cases hlt : p.stock < line.quantity
        · rw [if_pos hlt]; exact h
        · rw [if_neg hlt]
          have h2 : StoreNonneg (setProduct store line.product
              { p with stock := p.stock - line.quantity }) := by
            apply setProduct_nonneg _ _ _ h
            show 0 ≤ p.stock - line.quantity
            omega
          have := ih _ h2
          cases hrec : processCartItems
              (setProduct store line.product
                { p with stock := p.stock - line.quantity }) rest with
          | mk store3 out =>
            rw [hrec] at this
            cases out with
            | error e => exact this
            | ok v => exact this

/-! ### Update-status helper lemmas -/

theorem finishUpdate_store (s : ProductStore) (o : Order)
    (ps : Option PayStatus) (d : Option Nat) :
    (finishUpdate s o ps d).store = s := rfl

theorem finishUpdate_error (s : ProductStore) (o : Order)
    (ps : Option PayStatus) (d : Option Nat) :
    (finishUpdate s o ps d).error = none := rfl

theorem applyDeliveryDate_status (o : Order) (d : Option Nat) :
    (applyDeliveryDate o d).status = o.status := by
  cases d with
  | none => rfl
  | some date =>
    simp only [applyDeliveryDate]
    split
    · split
      · rfl
      · split <;> rfl
    · rfl

theorem applyDeliveryDate_items (o : Order) (d : Option Nat) :
    (applyDeliveryDate o d).items = o.items := by
  cases d with
  | none => rfl
  | some date =>
    simp only [applyDeliveryDate]
    split
    · split
      · rfl
      · split <;> rfl
    · rfl

theorem timelineSkeleton_payment (o : Order) (x : PayStatus) :
    timelineSkeleton { o with paymentStatus := x } = timelineSkeleton o := rfl

theorem timelineSkeleton_applyDeliveryDate (o : Order) (d : Option Nat) :
    timelineSkeleton (applyDeliveryDate o d) = timelineSkeleton o := by
  cases d with
  | none => rfl
  | some date =>
    simp only [applyDeliveryDate]
    split
    · split
      · rfl
      · next last heq =>
        split
        · simp only [timelineSkeleton, List.map_append, List.map_cons,
            List.map_nil]
          have hsplit : o.statusTimeline.dropLast ++ [last] =
              o.statusTimeline :=
            List.dropLast_append_getLast? last
              (by rw [Option.mem_def]; exact heq)
          conv_rhs => rw [← hsplit]
          rw [List.map_append]
          rfl
        · rfl
    · rfl

theorem finishUpdate_status (s : ProductStore) (o : Order)
    (ps : Option PayStatus) (d : Option Nat) :
    (finishUpdate s o ps d).order.status = o.status := by
  unfold finishUpdate
  cases ps with
  | none => exact applyDeliveryDate_status o d
  | some x => exact (applyDeliveryDate_status _ d).trans rfl

theorem finishUpdate_skeleton (s : ProductStore) (o : Order)
    (ps : Option PayStatus) (d : Option Nat) :
    timelineSkeleton (finishUpdate s o ps d).order = timelineSkeleton o := by
  unfold finishUpdate
  cases ps with
  | none => exact timelineSkeleton_applyDeliveryDate o d
  | some x => exact (timelineSkeleton_applyDeliveryDate _ d).trans rfl

theorem pushTimeline_status (o : Order) (st : Status) (now : Nat)
    (note : Option String) (prev : Status) :
    (pushTimeline o st now note prev).status = st := rfl

theorem pushTimeline_items (o : Order) (st : Status) (now : Nat)
    (note : Option String) (prev : Status) :
    (pushTimeline o st now note prev).items = o.items := rfl

/-! ### Stock non-negativity preservation -/

theorem createOrder_nonneg (store : ProductStore) (cart : Cart) (now : Nat)
    (num : String) (h : StoreNonneg store) :
    StoreNonneg (createOrder store cart now num).store := by
  unfold createOrder
  by_cases hc : cart.items = []
  · rw [if_pos hc]; exact h
  · rw [if_neg hc]
    have hrec := processCartItems_nonneg cart.items store h
    cases hsplit : processCartItems store cart.items with
    | mk s2 out =>
      rw [hsplit] at hrec
      cases out with
      | error e => exact hrec
      | ok v => cases v with | mk items total => exact hrec

theorem updateOrderStatus_nonneg (store : ProductStore) (order : Order)
    (ns : Option Status) (ps : Option PayStatus) (d : Option Nat)
    (note : Option String) (now : Nat)
    (h : StoreNonneg store) (hwf : WFOrder order) :
    StoreNonneg (updateOrderStatus store order ns ps d note now).store := by
  cases ns with
  | none => exact h
  | some status =>
    simp only [updateOrderStatus]
    by_cases he : status = order.status
    · rw [if_pos he]; exact h
    · rw [if_neg he]
      have h1 : StoreNonneg (if status = Status.cancelled ∧
          order.status ≠ Status.cancelled ∧ order.status ≠ Status.delivered
          then releaseItems store order.items else store) := by
        split
        · exact releaseItems_nonneg _ _ h hwf
        · exact h
      by_cases hreact : order.status = Status.cancelled ∧
          status ≠ Status.cancelled
      · rw [if_pos hreact]
        have h2 := reserveItems_nonneg order.items _ h1
        cases hres : reserveItems (if status = Status.cancelled ∧
            order.status ≠ Status.cancelled ∧
            order.status ≠ Status.delivered
            then releaseItems store order.items else store) order.items with
        | mk s2 sh =>
          rw [hres] at h2
          cases sh with
          | none => exact h2
          | some e => exact h2
      · rw [if_neg hreact]
        exact h1

theorem applyOp_nonneg (store : ProductStore) (op : Op)
    (h : StoreNonneg store) (hwf : WFOp op) :
    StoreNonneg (applyOp store op) := by
  cases op with
  | cartAdd cart pid q => exact h
  | checkout cart now num => exact createOrder_nonneg store cart now num h
  | statusUpdate o ns ps d note now =>
    exact updateOrderStatus_nonneg store o ns ps d note now h hwf

/-! ### Branch characterizations of updateOrderStatus -/

theorem finishUpdate_items (s : ProductStore) (o : Order)
    (ps : Option PayStatus) (d : Option Nat) :
    (finishUpdate s o ps d).order.items = o.items := by
  unfold finishUpdate
  cases ps with
  | none => exact applyDeliveryDate_items o d
  | some x => exact (applyDeliveryDate_items _ d).trans rfl

theorem updateOrderStatus_same (store : ProductStore) (order : Order)
    (ns : Option Status) (ps : Option PayStatus) (d : Option Nat)
    (note : Option String) (now : Nat)
    (h : ns = none ∨ ns = some order.status) :
    updateOrderStatus store order ns ps d note now =
      finishUpdate store order ps d := by
  rcases h with h | h
  · subst h; rfl
  · subst h
    simp only [updateOrderStatus]
    rw [if_pos trivial]

theorem updateOrderStatus_cancel (store : ProductStore) (order : Order)
    (ps : Option PayStatus) (d : Option Nat) (note : Option String)
    (now : Nat) (h1 : order.status ≠ Status.cancelled)
    (h2 : order.status ≠ Status.delivered) :
    updateOrderStatus store order (some Status.cancelled) ps d note now =
      finishUpdate (releaseItems store order.items)
        (pushTimeline order Status.cancelled now note order.status) ps d := by
  simp only [updateOrderStatus]
  rw [if_neg (fun h : Status.cancelled = order.status => h1 h.symm),
    if_neg (fun h : order.status = Status.cancelled ∧
      Status.cancelled ≠ Status.cancelled => h.2 rfl),
    if_pos (show True ∧ order.status ≠ Status.cancelled ∧
      order.status ≠ Status.delivered from ⟨trivial, h1, h2⟩)]

theorem updateOrderStatus_cancel_delivered (store : ProductStore)
    (order : Order) (ps : Option PayStatus) (d : Option Nat)
    (note : Option String) (now : Nat)
    (h : order.status = Status.delivered) :
    updateOrderStatus store order (some Status.cancelled) ps d note now =
      finishUpdate store
        (pushTimeline order Status.cancelled now note order.status) ps d := by
  have h1 : order.status ≠ Status.cancelled := by
    rw [h]; exact fun hc => Status.noConfusion hc
  simp only [updateOrderStatus]
  rw [if_neg (fun hh : Status.cancelled = order.status => h1 hh.symm),
    if_neg (fun hh : order.status = Status.cancelled ∧
      Status.cancelled ≠ Status.cancelled => hh.2 rfl),
    if_neg (fun hh : True ∧ order.status ≠ Status.cancelled ∧
      order.status ≠ Status.delivered => hh.2.2 h)]

theorem updateOrderStatus_reactivate (store : ProductStore) (order : Order)
    (status : Status) (ps : Option PayStatus) (d : Option Nat)
    (note : Option String) (now : Nat)
    (hprev : order.status = Status.cancelled)
    (hne : status ≠ Status.cancelled) :
    updateOrderStatus store order (some status) ps d note now =
      (match reserveItems store order.items with
       | (store2, some shortage) =>
         { store := store2, order := order, error := some shortage,
           events := [] }
       | (store2, none) =>
         finishUpdate store2
           (pushTimeline order status now note order.status) ps d) := by
  simp only [updateOrderStatus]
  rw [if_neg (fun h : status = order.status => hne (h.trans hprev)),
    if_pos (show order.status = Status.cancelled ∧
      status ≠ Status.cancelled from ⟨hprev, hne⟩),
    if_neg (fun h : status = Status.cancelled ∧
      order.status ≠ Status.cancelled ∧ order.status ≠ Status.delivered =>
      hne h.1)]

theorem reserveItems_none_mem (items : List OrderItem)
    (store : ProductStore) (it : OrderItem) (hmem : it ∈ items)
    (hnodup : (items.map OrderItem.product).Nodup)
    (hok : (reserveItems store items).2 = none) :
    (reserveItems store items).1 it.product =
      (store it.product).map
        (fun p => { p with stock := p.stock - it.quantity }) := by
  induction items generalizing store with
  | nil => cases hmem
  | cons hd rest ih =>
    simp only [List.map_cons, List.nodup_cons] at hnodup
    obtain ⟨hhd, hrest⟩ := hnodup
    cases hst : store hd.product with
    | none =>
      simp only [reserveItems, hst] at hok ⊢
      rcases List.mem_cons.mp hmem with heq | hmem2
      · subst heq
        rw [reserveItems_fst_not_mem _ _ _ hhd, hst]
        rfl
      · exact ih store hmem2 hrest hok
    | some p =>
      by_cases hlt : p.stock < hd.quantity
      · exfalso
        simp only [reserveItems, hst, if_pos hlt] at hok
        exact Option.noConfusion hok
      · simp only [reserveItems, hst, if_neg hlt] at hok ⊢
        rcases List.mem_cons.mp hmem with heq | hmem2
        · subst heq
          rw [reserveItems_fst_not_mem _ _ _ hhd, setProduct_self, hst]
          rfl
        · have hne : it.product ≠ hd.product := by
            intro h
            exact hhd (h ▸ List.mem_map_of_mem OrderItem.product hmem2)
          rw [ih _ hmem2 hrest hok, setProduct_ne _ _ _ _ hne]

theorem product_stock_cancel (p : Product) (q : Int) :
    ({ p with stock := p.stock + q - q } : Product) = p := by
  cases p with
  | mk n pr di st ac =>
    simp only [Product.mk.injEq, true_and, and_true]
    omega

/-! ### Cart merge lemmas -/

theorem mergeLine_append (stock : Int) (productId : Nat) (quantity : Int)
    (items : List CartItem)
    (h : productId ∉ items.map CartItem.product) :
    mergeLine stock productId quantity items =
      .ok (items ++ [{ product := productId, quantity := quantity }]) := by
  induction items with
  | nil => rfl
  | cons it rest ih =>
    simp only [List.map_cons, List.mem_cons, not_or] at h
    obtain ⟨h1, h2⟩ := h
    simp only [mergeLine]
    rw [if_neg (fun hh => h1 hh.symm), ih h2]
    rfl

theorem mergeLine_first (stock : Int) (productId : Nat) (quantity : Int)
    (pre : List CartItem) (line : CartItem) (post : List CartItem)
    (hline : line.product = productId)
    (hpre : ∀ it ∈ pre, it.product ≠ productId) :
    mergeLine stock productId quantity (pre ++ line :: post) =
      (if stock < line.quantity + quantity then
         .error (.insufficientStock stock (line.quantity + quantity))
       else
         .ok (pre ++
           { product := productId,
             quantity := line.quantity + quantity } :: post)) := by
  induction pre with
  | nil =>
    simp only [List.nil_append, mergeLine]
    rw [if_pos hline]
  | cons hd rest ih =>
    simp only [List.cons_append, mergeLine, List.append_eq]
    rw [if_neg (hpre hd (List.mem_cons_self _ _)),
      ih (fun it hit => hpre it (List.mem_cons_of_mem _ hit))]
    by_cases hc : stock < line.quantity + quantity
    · rw [if_pos hc, if_pos hc]
    · rw [if_neg hc, if_neg hc]

/-! ### Coupon guard lemmas -/

theorem couponExpired_false (coupon : Coupon) (now : Nat)
    (h : ∀ e ∈ coupon.expiryDate, ¬ e < now) :
    couponExpired coupon now = false := by
  unfold couponExpired
  cases hE : coupon.expiryDate with
  | none => rfl
  | some e =>
    have he := h e (by rw [Option.mem_def, hE])
    simp [he]

theorem couponCapReached_false (coupon : Coupon)
    (h : ∀ l ∈ coupon.usageLimit, coupon.usedCount < l) :
    couponCapReached coupon = false := by
  unfold couponCapReached
  cases hL : coupon.usageLimit with
  | none => rfl
  | some l =>
    have hl := h l (by rw [Option.mem_def, hL])
    simp [Nat.not_le.mpr hl]

/-! ### Claim theorems -/

/-- C1: for every product and every sequence of the system's
stock-mutating operations (cart add, checkout's per-line reserve, the
status update's cancel release and reactivation reserve), stock stays
non-negative: every decrement of `q` is guarded by a prior
`stock >= q` check and releases only increment (order items carry
`quantity >= 1` per the schema). -/
theorem stock_never_negative (store : ProductStore) (ops : List Op)
    (h0 : StoreNonneg store) (hops : ∀ op ∈ ops, WFOp op) :
    StoreNonneg (ops.foldl applyOp store) := by
  induction ops generalizing store with
  | nil => exact h0
  | cons op rest ih =>
    exact ih _ (applyOp_nonneg store op h0 (hops op (List.mem_cons_self _ _)))
      (fun o ho => hops o (List.mem_cons_of_mem _ ho))

/-- C2: a status update to `cancelled` on an order that is neither
cancelled nor delivered succeeds and adds each item's quantity back to
that item's product stock; a status update to `cancelled` on a
delivered order leaves the product store untouched. -/
theorem cancel_stock_effect (store : ProductStore) (order : Order)
    (ps : Option PayStatus) (d : Option Nat) (note : Option String)
    (now : Nat) :
    (order.status ≠ Status.cancelled → order.status ≠ Status.delivered →
       (order.items.map OrderItem.product).Nodup →
       (updateOrderStatus store order (some Status.cancelled)
          ps d note now).error = none ∧
       ∀ it ∈ order.items, ∀ p, store it.product = some p →
         (updateOrderStatus store order (some Status.cancelled)
            ps d note now).store it.product =
           some { p with stock := p.stock + it.quantity }) ∧
    (order.status = Status.delivered →
       (updateOrderStatus store order (some Status.cancelled)
          ps d note now).store = store) := by
  constructor
  · intro h1 h2 hnodup
    rw [updateOrderStatus_cancel store order ps d note now h1 h2]
    refine ⟨finishUpdate_error _ _ _ _, ?_⟩
    intro it hit p hp
    rw [finishUpdate_store, releaseItems_mem _ _ _ hit hnodup, hp]
    rfl
  · intro h
    rw [updateOrderStatus_cancel_delivered store order ps d note now h,
      finishUpdate_store]

/-- C9: a status update whose new status is absent or equal to the
current one changes no product stock and appends no timeline entry
(only at most an existing entry's note is touched, by the
expected-delivery back-patch). -/
theorem updateStatus_idempotent (store : ProductStore) (order : Order)
    (ns : Option Status) (ps : Option PayStatus) (d : Option Nat)
    (note : Option String) (now : Nat)
    (h : ns = none ∨ ns = some order.status) :
    (updateOrderStatus store order ns ps d note now).store = store ∧
    (updateOrderStatus store order ns ps d note now).error = none ∧
    timelineSkeleton (updateOrderStatus store order ns ps d note now).order =
      timelineSkeleton order := by
  rw [updateOrderStatus_same store order ns ps d note now h]
  exact ⟨finishUpdate_store _ _ _ _, finishUpdate_error _ _ _ _,
    finishUpdate_skeleton _ _ _ _⟩

/-- C6: contrary to the repo's own Socket.IO integration guide, the
order controller never invokes `emitNewOrder` or
`emitOrderStatusUpdate`: the event trace of every `createOrder` call and
of every `updateOrderStatus` call is empty, so no `order:new` and no
`order:status-updated` event ever reaches the admin room. -/
theorem orderFlow_emits_no_event (store : ProductStore) (cart : Cart)
    (now : Nat) (num : String) (store2 : ProductStore) (order : Order)
    (ns : Option Status) (ps : Option PayStatus) (d : Option Nat)
    (note : Option String) (now2 : Nat) :
    (createOrder store cart now num).events = [] ∧
    (updateOrderStatus store2 order ns ps d note now2).events = [] := by
  constructor
  · unfold createOrder
    split
    · rfl
    · cases hrec : processCartItems store cart.items with
      | mk s2 out =>
        cases out with
        | error e => rfl
        | ok v => cases v with | mk items total => rfl
  · cases ns with
    | none => rfl
    | some status =>
      simp only [updateOrderStatus]
      split
      · rfl
      · split
        · cases hres : reserveItems (if status = Status.cancelled ∧
              order.status ≠ Status.cancelled ∧
              order.status ≠ Status.delivered
              then releaseItems store2 order.items else store2)
              order.items with
          | mk s3 sh => cases sh with
            | none => rfl
            | some e => rfl
        · rfl

/-- C3: reactivating a cancelled order (any new status other than
`cancelled`) re-validates every line: when every existing product covers
its item's quantity the call succeeds, sets the new status and subtracts
each quantity from stock; when the items split as `pre ++ bad :: post`
with every product of `pre` sufficient and `bad`'s product short, the
call fails naming that first insufficient product with its available and
required quantities. -/
theorem reactivation_recommits (store : ProductStore) (order : Order)
    (status : Status) (ps : Option PayStatus) (d : Option Nat)
    (note : Option String) (now : Nat)
    (hprev : order.status = Status.cancelled)
    (hne : status ≠ Status.cancelled)
    (hnodup : (order.items.map OrderItem.product).Nodup) :
    ((∀ it ∈ order.items, ∀ p, store it.product = some p →
        it.quantity ≤ p.stock) →
       (updateOrderStatus store order (some status) ps d note now).error
         = none ∧
       (updateOrderStatus store order (some status) ps d note now).order.status
         = status ∧
       ∀ it ∈ order.items, ∀ p, store it.product = some p →
         (updateOrderStatus store order (some status) ps d note now).store
           it.product = some { p with stock := p.stock - it.quantity }) ∧
    (∀ pre bad post p, order.items = pre ++ bad :: post →
       store bad.product = some p → p.stock < bad.quantity →
       (∀ jt ∈ pre, ∀ q, store jt.product = some q →
          jt.quantity ≤ q.stock) →
       (updateOrderStatus store order (some status) ps d note now).error =
         some { name := p.name, available := p.stock,
                required := bad.quantity }) := by
  rw [updateOrderStatus_reactivate store order status ps d note now hprev hne]
  constructor
  · intro hsuff
    have hres := reserveItems_ok order.items store hnodup hsuff
    cases hsplit : reserveItems store order.items with
    | mk s2 sh =>
      rw [hsplit] at hres
      obtain ⟨hnone, hstocks⟩ := hres
      simp only at hnone
      subst hnone
      simp only []
      refine ⟨finishUpdate_error _ _ _ _, ?_, ?_⟩
      · rw [finishUpdate_status, pushTimeline_status]
      · intro it hit p hp
        rw [finishUpdate_store]
        have hone := hstocks it hit
        simp only at hone
        rw [hone, hp]
        rfl
  · intro pre bad post p hitems hp hlt hpre
    have hfail := reserveItems_fail pre bad post store p
      (hitems ▸ hnodup) hp hlt hpre
    rw [← hitems] at hfail
    cases hres : reserveItems store order.items with
    | mk s2 sh =>
      rw [hres] at hfail
      obtain ⟨hsome, _⟩ := hfail
      simp only at hsome
      subst hsome
      rfl

/-- C10: when reactivating a cancelled order fails at an item whose
product is short (items `pre ++ bad :: post`, every existing product of
`pre` sufficient, missing products silently skipped), the order document
is returned unchanged — never saved — while the stock decrements already
made for `pre`'s existing products stay persisted. -/
theorem reactivation_abort_keeps_decrements (store : ProductStore) (order : Order)
    (status : Status) (ps : Option PayStatus) (d : Option Nat)
    (note : Option String) (now : Nat) (pre : List OrderItem)
    (bad : OrderItem) (post : List OrderItem) (p : Product)
    (hprev : order.status = Status.cancelled)
    (hne : status ≠ Status.cancelled)
    (hitems : order.items = pre ++ bad :: post)
    (hnodup : (order.items.map OrderItem.product).Nodup)
    (hp : store bad.product = some p) (hlt : p.stock < bad.quantity)
    (hpre : ∀ jt ∈ pre, ∀ q, store jt.product = some q →
       jt.quantity ≤ q.stock) :
    (updateOrderStatus store order (some status) ps d note now).error =
      some { name := p.name, available := p.stock,
             required := bad.quantity } ∧
    (updateOrderStatus store order (some status) ps d note now).order =
      order ∧
    ∀ jt ∈ pre, ∀ q, store jt.product = some q →
      (updateOrderStatus store order (some status) ps d note now).store
        jt.product = some { q with stock := q.stock - jt.quantity } := by
  rw [updateOrderStatus_reactivate store order status ps d note now hprev hne]
  have hfail := reserveItems_fail pre bad post store p
    (hitems ▸ hnodup) hp hlt hpre
  rw [← hitems] at hfail
  cases hres : reserveItems store order.items with
  | mk s2 sh =>
    rw [hres] at hfail
    obtain ⟨hsome, hstocks⟩ := hfail
    simp only at hsome hstocks
    subst hsome
    refine ⟨rfl, rfl, ?_⟩
    intro jt hjt q hq
    show s2 jt.product = _
    rw [hstocks jt hjt, hq]
    rfl

/-- C4: cancelling a non-cancelled, non-delivered order and then
reactivating it under any non-cancelled status, with no other catalog
change in between and the reactivation succeeding, restores every
product's store entry to its pre-cancel value. -/
theorem cancel_reactivate_roundtrip (store : ProductStore) (order : Order)
    (status2 : Status) (ps1 ps2 : Option PayStatus) (d1 d2 : Option Nat)
    (n1 n2 : Option String) (t1 t2 : Nat)
    (h1 : order.status ≠ Status.cancelled)
    (h2 : order.status ≠ Status.delivered)
    (hs2 : status2 ≠ Status.cancelled)
    (hnodup : (order.items.map OrderItem.product).Nodup)
    (hok : (updateOrderStatus
        (updateOrderStatus store order (some Status.cancelled)
          ps1 d1 n1 t1).store
        (updateOrderStatus store order (some Status.cancelled)
          ps1 d1 n1 t1).order
        (some status2) ps2 d2 n2 t2).error = none) :
    ∀ pid, (updateOrderStatus
        (updateOrderStatus store order (some Status.cancelled)
          ps1 d1 n1 t1).store
        (updateOrderStatus store order (some Status.cancelled)
          ps1 d1 n1 t1).order
        (some status2) ps2 d2 n2 t2).store pid = store pid := by
  intro pid
  rw [updateOrderStatus_cancel store order ps1 d1 n1 t1 h1 h2] at hok ⊢
  rw [finishUpdate_store] at hok ⊢
  have hstat : (finishUpdate (releaseItems store order.items)
      (pushTimeline order Status.cancelled t1 n1 order.status) ps1
      d1).order.status = Status.cancelled := by
    rw [finishUpdate_status, pushTimeline_status]
  have hitems : (finishUpdate (releaseItems store order.items)
      (pushTimeline order Status.cancelled t1 n1 order.status) ps1
      d1).order.items = order.items := by
    rw [finishUpdate_items, pushTimeline_items]
  rw [updateOrderStatus_reactivate _ _ _ _ _ _ _ hstat hs2] at hok ⊢
  rw [hitems] at hok ⊢
  cases hres : reserveItems (releaseItems store order.items)
      order.items with
  | mk s2 sh =>
    cases sh with
    | some shortage =>
      rw [hres] at hok
      exact Option.noConfusion hok
    | none =>
      show s2 pid = store pid
      by_cases hmem : pid ∈ order.items.map OrderItem.product
      · obtain ⟨it, hit, hpid⟩ := List.mem_map.mp hmem
        subst hpid
        have hrel := releaseItems_mem order.items store it hit hnodup
        have hresv : s2 it.product =
            (releaseItems store order.items it.product).map
              (fun p => { p with stock := p.stock - it.quantity }) := by
          have h0 := reserveItems_none_mem order.items
            (releaseItems store order.items) it hit hnodup (by rw [hres])
          rw [hres] at h0
          exact h0
        rw [hresv, hrel]
        cases hst : store it.product with
        | none => rfl
        | some q =>
          simp only [Option.map_some', Option.some.injEq]
          cases q with
          | mk n pr di st ac =>
            simp only [Product.mk.injEq]
            refine ⟨trivial, trivial, trivial, ?_, trivial⟩
            omega
      · have hrel := releaseItems_not_mem order.items store pid hmem
        have hresv : s2 pid = releaseItems store order.items pid := by
          have h0 := reserveItems_fst_not_mem order.items
            (releaseItems store order.items) pid hmem
          rw [hres] at h0
          exact h0
        rw [hresv, hrel]

/-- C5: on a non-empty cart whose lines all hit existing, active
products with sufficient stock, checkout succeeds: each product's stock
drops by its line quantity, the cart keeps its record but loses its
lines, and the order carries status `placed`, payment status `pending`,
the cart's user, a total equal to the sum over lines of quantity times
the (discounted-or-plain) current price, and exactly one seeded `placed`
timeline entry. -/
theorem createFromCart_success (store : ProductStore) (cart : Cart)
    (now : Nat) (num : String)
    (hne : cart.items ≠ [])
    (hnodup : (cart.items.map CartItem.product).Nodup)
    (hsuff : ∀ line ∈ cart.items, ∃ p, store line.product = some p ∧
       p.isActive = true ∧ line.quantity ≤ p.stock) :
    (∃ order, (createOrder store cart now num).outcome =
       .ok (order, { cart with items := [] }) ∧
       order.status = Status.placed ∧
       order.paymentStatus = PayStatus.pending ∧
       order.user = cart.user ∧
       order.totalAmount = cartTotal store cart.items ∧
       order.statusTimeline =
         [{ status := Status.placed, timestamp := now,
            note := "Order placed successfully" }]) ∧
    ∀ line ∈ cart.items, ∀ p, store line.product = some p →
      (createOrder store cart now num).store line.product =
        some { p with stock := p.stock - line.quantity } := by
  have hrun := processCartItems_ok cart.items store hnodup hsuff
  obtain ⟨⟨items, hout⟩, hstocks⟩ := hrun
  unfold createOrder
  rw [if_neg hne]
  cases hsplit : processCartItems store cart.items with
  | mk s2 out =>
    rw [hsplit] at hout
    simp only at hout
    subst hout
    constructor
    · refine ⟨_, rfl, rfl, rfl, rfl, rfl, rfl⟩
    · intro line hline p hp
      have h0 := hstocks line hline
      rw [hsplit] at h0
      simp only at h0
      show s2 line.product = _
      rw [h0, hp]
      rfl

/-- C7: adding to the cart an existing, active product (cart line
quantities at least 1 per the schema): with an existing line of quantity
`e` the call fails with insufficient stock exactly when `e + qty`
exceeds current stock and otherwise merges the line to `e + qty`;
without an existing line it fails exactly when `qty` exceeds current
stock and otherwise appends a new line of quantity `qty`. -/
theorem addToCart_spec (store : ProductStore) (cart : Cart)
    (productId : Nat) (quantity : Int) (p : Product)
    (hp : store productId = some p) (hactive : p.isActive = true)
    (hq : ∀ it ∈ cart.items, 1 ≤ it.quantity) :
    (∀ pre line post, cart.items = pre ++ line :: post →
       line.product = productId →
       (∀ it ∈ pre, it.product ≠ productId) →
       (p.stock < line.quantity + quantity →
          ∃ a r, addToCart store cart productId quantity =
            .error (.insufficientStock a r)) ∧
       (line.quantity + quantity ≤ p.stock →
          addToCart store cart productId quantity =
            .ok { cart with items := pre ++
              { product := productId,
                quantity := line.quantity + quantity } :: post })) ∧
    (productId ∉ cart.items.map CartItem.product →
       (p.stock < quantity →
          addToCart store cart productId quantity =
            .error (.insufficientStock p.stock quantity)) ∧
       (quantity ≤ p.stock →
          addToCart store cart productId quantity =
            .ok { cart with items := cart.items ++
              [{ product := productId, quantity := quantity }] })) := by
  have hact2 : ¬ p.isActive = false := by simp [hactive]
  constructor
  · intro pre line post hitems hline hpre
    have hline1 : 1 ≤ line.quantity := by
      apply hq
      rw [hitems]
      exact List.mem_append_right pre (List.mem_cons_self _ _)
    constructor
    · intro hover
      by_cases hsq : p.stock < quantity
      · refine ⟨p.stock, quantity, ?_⟩
        simp only [addToCart, hp, if_neg hact2, if_pos hsq]
      · refine ⟨p.stock, line.quantity + quantity, ?_⟩
        simp only [addToCart, hp, if_neg hact2, if_neg hsq, hitems]
        rw [mergeLine_first p.stock productId quantity pre line post hline
          hpre, if_pos hover]
    · intro hfits
      have hsq : ¬ p.stock < quantity := by omega
      simp only [addToCart, hp, if_neg hact2, if_neg hsq, hitems]
      rw [mergeLine_first p.stock productId quantity pre line post hline
        hpre, if_neg (by omega : ¬ p.stock < line.quantity + quantity)]
  · intro hmem
    constructor
    · intro hsq
      simp only [addToCart, hp, if_neg hact2, if_pos hsq]
    · intro hfits
      simp only [addToCart, hp, if_neg hact2,
        if_neg (not_lt.mpr hfits)]
      rw [mergeLine_append p.stock productId quantity cart.items hmem]

/-- C8: validating an existing, active, unexpired coupon whose usage cap
is not reached writes nothing (in particular `usedCount` is unchanged),
fails below-minimum exactly when a non-zero minimum purchase amount
exceeds the cart total, and otherwise succeeds with the discount and
final amounts computed from the percentage and rounded to two
decimals. -/
theorem validateCoupon_spec (store : CouponStore) (code : String)
    (total : Rat) (now : Nat) (coupon : Coupon)
    (hfind : store (toUpperString code) = some coupon)
    (hactive : coupon.isActive = true)
    (hexp : ∀ e ∈ coupon.expiryDate, ¬ e < now)
    (hcap : ∀ l ∈ coupon.usageLimit, coupon.usedCount < l) :
    (validateCoupon store code total now).1 = store ∧
    (coupon.minPurchaseAmount ≠ 0 ∧ total < coupon.minPurchaseAmount →
       (validateCoupon store code total now).2 =
         .belowMinimum coupon.minPurchaseAmount) ∧
    (¬(coupon.minPurchaseAmount ≠ 0 ∧ total < coupon.minPurchaseAmount) →
       (validateCoupon store code total now).2 =
         .ok coupon.code coupon.discountPercentage
           (toFixed2 (total * coupon.discountPercentage / 100))
           (toFixed2 (total - total * coupon.discountPercentage / 100))) := by
  have hact2 : ¬ coupon.isActive = false := by simp [hactive]
  have hE := couponExpired_false coupon now hexp
  have hC := couponCapReached_false coupon hcap
  refine ⟨?_, ?_, ?_⟩
  · simp only [validateCoupon, hfind, if_neg hact2, hE, hC,
      Bool.false_eq_true, if_false]
    split <;> rfl
  · intro hmin
    simp only [validateCoupon, hfind, if_neg hact2, hE, hC,
      Bool.false_eq_true, if_false]
    rw [if_pos hmin]
  · intro hmin
    simp only [validateCoupon, hfind, if_neg hact2, hE, hC,
      Bool.false_eq_true, if_false]
    rw [if_neg hmin]

/-! ### Concrete witnesses -/

theorem demoStore_nonneg : StoreNonneg demoStore := by
  intro pid p hp
  unfold demoStore at hp
  split at hp
  · exact (Option.some.inj hp) ▸ (by decide)
  · exact Option.noConfusion hp

theorem demoStore_lookup (p : Product) (hp : demoStore 1 = some p) :
    p = demoProduct :=
  (Option.some.inj (show some demoProduct = some p from hp)).symm

theorem demoOps_wf : ∀ op ∈ demoOps, WFOp op := by
  intro op hop
  simp only [demoOps, List.mem_cons, List.not_mem_nil, or_false] at hop
  rcases hop with rfl | rfl
  · trivial
  · trivial

theorem stock_never_negative_witness :
    0 ≤ Product.stock (⟨"Tomato", 50, 0, 3, true⟩ : Product) :=
  stock_never_negative demoStore demoOps demoStore_nonneg demoOps_wf 1
    (⟨"Tomato", 50, 0, 3, true⟩ : Product) (by decide)

theorem cancel_stock_effect_witness :
    (updateOrderStatus demoStore demoOrder (some Status.cancelled) none none
      none 1).error = none ∧
    (updateOrderStatus demoStore demoOrder (some Status.cancelled) none none
      none 1).store 1 = some { demoProduct with stock := 7 } := by
  have h := (cancel_stock_effect demoStore demoOrder none none none 1).1
    (by decide) (by decide) (by decide)
  refine ⟨h.1, ?_⟩
  have h2 := h.2 (⟨1, "Tomato", 2, 50, 0⟩ : OrderItem) (by decide)
    demoProduct rfl
  exact h2.trans (by decide)

theorem reactivation_recommits_witness :
    (updateOrderStatus demoStore demoCancelled (some Status.accepted) none
      none none 2).error = none ∧
    (updateOrderStatus demoStore demoCancelled (some Status.accepted) none
      none none 2).order.status = Status.accepted ∧
    (updateOrderStatus demoStore demoCancelled (some Status.accepted) none
      none none 2).store 1 = some { demoProduct with stock := 3 } := by
  have hsuff : ∀ it ∈ demoCancelled.items, ∀ p,
      demoStore it.product = some p → it.quantity ≤ p.stock := by
    intro it hit p hp
    simp only [demoCancelled, demoOrder, List.mem_singleton] at hit
    subst hit
    have hpd := demoStore_lookup p hp
    subst hpd
    decide
  have h := (reactivation_recommits demoStore demoCancelled Status.accepted
    none none none 2 (by decide) (by decide) (by decide)).1 hsuff
  refine ⟨h.1, h.2.1, ?_⟩
  have h2 := h.2.2 (⟨1, "Tomato", 2, 50, 0⟩ : OrderItem) (by decide)
    demoProduct rfl
  exact h2.trans (by decide)

theorem cancel_reactivate_roundtrip_witness :
    (updateOrderStatus
      (updateOrderStatus demoStore demoOrder (some Status.cancelled) none
        none none 1).store
      (updateOrderStatus demoStore demoOrder (some Status.cancelled) none
        none none 1).order
      (some Status.accepted) none none none 2).store 1 = demoStore 1 :=
  cancel_reactivate_roundtrip demoStore demoOrder Status.accepted none none
    none none none none 1 2 (by decide) (by decide) (by decide) (by decide)
    (by decide) 1

theorem createFromCart_success_witness :
    (createOrder demoStore demoCart 0 "#002").store 1 =
      some { demoProduct with stock := 3 } := by
  have hsuff : ∀ line ∈ demoCart.items, ∃ p,
      demoStore line.product = some p ∧ p.isActive = true ∧
      line.quantity ≤ p.stock := by
    intro line hl
    simp only [demoCart, List.mem_singleton] at hl
    subst hl
    exact ⟨demoProduct, rfl, rfl, by decide⟩
  have h := (createFromCart_success demoStore demoCart 0 "#002"
    (by decide) (by decide) hsuff).2 { product := 1, quantity := 2 }
    (by decide) demoProduct rfl
  exact h.trans (by decide)

theorem addToCart_spec_witness :
    addToCart demoStore
      { user := 7, items := [{ product := 1, quantity := 3 }] } 1 2 =
      .ok { user := 7, items := [{ product := 1, quantity := 5 }] } := by
  have h := (addToCart_spec demoStore
    { user := 7, items := [{ product := 1, quantity := 3 }] } 1 2
    demoProduct rfl rfl (by decide)).1 []
    { product := 1, quantity := 3 } [] rfl rfl
    (fun it hit => absurd hit (List.not_mem_nil it))
  have h2 := h.2 (by decide)
  exact h2.trans (by rfl)

theorem validateCoupon_spec_witness :
    (validateCoupon demoCoupons "SAVE10" 50 0).2 =
      CouponOutcome.belowMinimum 100 ∧
    (validateCoupon demoCoupons "SAVE10" 200 0).2 =
      CouponOutcome.ok "SAVE10" 10 (toFixed2 20) (toFixed2 180) ∧
    (validateCoupon demoCoupons "SAVE10" 200 0).1 = demoCoupons := by
  have hfind : demoCoupons (toUpperString "SAVE10") = some demoCoupon := by
    decide
  have hexp : ∀ e ∈ demoCoupon.expiryDate, ¬ e < 0 :=
    fun e he => Option.noConfusion he
  have hcap : ∀ l ∈ demoCoupon.usageLimit, demoCoupon.usedCount < l :=
    fun l hl => Option.noConfusion hl
  have h1 := validateCoupon_spec demoCoupons "SAVE10" 50 0 demoCoupon hfind
    rfl hexp hcap
  have h2 := validateCoupon_spec demoCoupons "SAVE10" 200 0 demoCoupon hfind
    rfl hexp hcap
  refine ⟨(h1.2.1 (by decide)).trans (by decide),
    (h2.2.2 (by decide)).trans ?_, h2.1⟩
  norm_num [demoCoupon]

theorem updateStatus_idempotent_witness :
    (updateOrderStatus demoStore demoOrder (some Status.placed) none none
      none 3).store = demoStore ∧
    (updateOrderStatus demoStore demoOrder (some Status.placed) none none
      none 3).error = none ∧
    timelineSkeleton (updateOrderStatus demoStore demoOrder
      (some Status.placed) none none none 3).order =
      timelineSkeleton demoOrder :=
  updateStatus_idempotent demoStore demoOrder (some Status.placed) none none
    none 3 (Or.inr rfl)

theorem reactivation_abort_keeps_decrements_witness :
    (updateOrderStatus demoLowStore demoCancelled (some Status.accepted)
      none none none 4).error =
      some { name := "Tomato", available := 1, required := 2 } ∧
    (updateOrderStatus demoLowStore demoCancelled (some Status.accepted)
      none none none 4).order = demoCancelled := by
  have h := reactivation_abort_keeps_decrements demoLowStore demoCancelled
    Status.accepted none none none 4 [] (⟨1, "Tomato", 2, 50, 0⟩ : OrderItem)
    [] (⟨"Tomato", 50, 0, 1, true⟩ : Product)
    (by decide) (by decide) (by decide) (by decide) rfl (by decide)
    (fun jt hjt => absurd hjt (List.not_mem_nil jt))
  exact ⟨h.1.trans (by decide), h.2.1⟩

end Kuppams
